import Mathlib

/-!
# Verification of the evolutionary pattern-search core

A shallow embedding of `src/main.rs` and `src/mirror.rs` of the repository,
together with theorems settling the frozen claims about its specification.

The external linguistic engine (`harper_core`: tokenization, `Document`
construction, and evaluation of compiled expressions) is outside `src/`;
expression evaluation is therefore modelled from the spec where a claim
needs it, and a candidate enters the fitness evaluator only through the
sequence of match spans the engine yields for each document.
-/

set_option maxRecDepth 10000
set_option linter.unnecessarySeqFocus false
set_option linter.unusedVariables false

/-- A match span produced by the external matcher.  Scoring only ever counts
spans, so their payload is irrelevant; a start/end pair stands in for
the span type of `harper_core`. -/
abbrev Span := Nat × Nat

/-- A compiled candidate as `score` consumes it: the composition of
`Document::new_plain_english_curated` with `candidate.iter_matches_in_doc`,
i.e. a function from the raw document text to the finite sequence of match
spans the scan yields.  Both composed parts live outside `src/`. -/
abbrev Scan := String → List Span

/-- The problem corpus: `problems()` in `main.rs`. -/
def problems : List String :=
  ["I need too finish this report before noon.",
   "She went too the grocery store after work.",
   "We decided too postpone the meeting.",
   "He forgot too send the invitation.",
   "Remember too lock the door.",
   "They plan too travel next spring.",
   "I tried too explain the discrepancy.",
   "Please add this file too the repository.",
   "He refused too apologize for the oversight.",
   "I\x27m happy too help with debugging.",
   "Set the thermostat back too sixty-eight at night.",
   "We need too align our objectives.",
   "She learned how too solder the components.",
   "The CEO chose too prioritize profitability.",
   "Use the adapter too connect the cable.",
   "He ran from end too end of the field.",
   "It\x27s critical too verify each assumption.",
   "Attach the label too the container.",
   "I meant too forward you the email.",
   "They drove too Denver before sunrise.",
   "Tap here too continue.",
   "I neglected too charge the laptop.",
   "We hope too avoid scope creep.",
   "Click \x27Build\x27 too compile the project.",
   "The change needs too propagate across services.",
   "I\x27m going too grab lunch.",
   "She agreed too mentor the interns.",
   "He promised too follow up tomorrow.",
   "Use this form too request access.",
   "I prefer too work asynchronously.",
   "The team aims too reduce latency.",
   "Press Esc too cancel.",
   "Switch lanes from left too right safely.",
   "We\x27re moving from draft too production.",
   "I waited an hour just too speak with support.",
   "Route the packet too the primary gateway.",
   "This needs to adhere too the spec.",
   "According too our records, your payment cleared.",
   "Due too network congestion, the upload stalled.",
   "We intend too deprecate this endpoint."]

/-- The clean corpus: `clean()` in `main.rs`. -/
def clean : List String :=
  ["I need to finish this report before noon.",
   "She went to the grocery store after work.",
   "We decided to postpone the meeting.",
   "He forgot to send the invitation.",
   "Remember to lock the door.",
   "They plan to travel next spring.",
   "I tried to explain the discrepancy.",
   "Please add this file to the repository.",
   "He refused to apologize for the oversight.",
   "I\x27m happy to help with debugging.",
   "Set the thermostat back to sixty-eight at night.",
   "We need to align our objectives.",
   "She learned how to solder the components.",
   "The CEO chose to prioritize profitability.",
   "Use the adapter to connect the cable.",
   "He ran from end to end of the field.",
   "It\x27s critical to verify each assumption.",
   "Attach the label to the container.",
   "I meant to forward you the email.",
   "They drove to Denver before sunrise.",
   "Tap here to continue.",
   "I neglected to charge the laptop.",
   "We hope to avoid scope creep.",
   "Click \x27Build\x27 to compile the project.",
   "The change needs to propagate across services.",
   "I\x27m going to grab lunch.",
   "She agreed to mentor the interns.",
   "He promised to follow up tomorrow.",
   "Use this form to request access.",
   "I prefer to work asynchronously.",
   "The team aims to reduce latency.",
   "Press Esc to cancel.",
   "Switch lanes from left to right safely.",
   "We\x27re moving from draft to production.",
   "I waited an hour just to speak with support.",
   "Route the packet to the primary gateway.",
   "This needs to adhere to the spec.",
   "According to our records, your payment cleared.",
   "Due to network congestion, the upload stalled.",
   "We intend to deprecate this endpoint.",
   "It was far too late to salvage the schedule.",
   "The espresso tasted too bitter for my palate.",
   "She is joining the expedition too, despite the warnings.",
   "Your proposal is too vague for the board.",
   "The server grew too hot under sustained load.",
   "He spoke too quickly to be understood.",
   "I found the contract too onerous to sign.",
   "They arrived too early and waited in silence.",
   "This dataset is too noisy for reliable inference.",
   "The film was too long yet strangely compelling.",
   "The cliff looked too sheer for novice climbers.",
   "Her apology felt too rehearsed to be sincere.",
   "That price is too steep for a prototype.",
   "He ate too much and regretted it.",
   "The room grew too quiet to ignore.",
   "Your tone is too abrasive for diplomacy.",
   "The deadline is too tight for thorough testing.",
   "She laughed too hard at the misprint.",
   "The instructions are too convoluted for speed.",
   "I, too, questioned the methodology.",
   "He goes too far with bets.",
   "Just be prepared to occasionally troubleshoot the debugger itself.",
   "It takes a great deal of energy to consistently operate under that kind of pressure.",
   "I am too hungry.",
   "Please remember to eat your vegetables.",
   "I’m going to Nashville next week.",
   "Talk to you later.",
   "The coffee is too hot to drink.",
   "The music was too loud, making it hard to hear.",
   "He\x27s too shy to speak in public.",
   "The cake is too sweet for my taste.",
   "It\x27s too expensive for me to buy right now.",
   "She worked too hard and ended up getting sick.",
   "The instructions were too complicated to understand.",
   "I like apples, and my brother does too.",
   "She\x27s coming to the party, and he is too.",
   "I want to go to the beach, and you do too?",
   "He\x27s a talented musician, and a great friend too.",
   "The movie was good, and the popcorn was delicious too.",
   "The problem is too difficult, and the deadline is too close.",
   "He\x27s too good at the game, and he\x27s too nice to win.",
   "Bringing Hope and Opportunity to Young Musicians",
   "Attendees can look forward to:",
   "We\x27re empowering them to build brighter futures.",
   "I’d like you to consciously delegate one task",
   "Soundscapes are not merely environmental features; they are integral to human identity and cultural expression.",
   "Its speed, flexibility, and seamless integration with FZF make it a compelling alternative to traditional fuzzy finding solutions.",
   "Attempted to explicitly cast the result back to a string",
   "They felt buried under the data, unable to proactively address emerging threats.",
   "Familiarize yourself with these resources to learn how to effectively utilize the plugin’s features.",
   "It takes a great deal of energy to consistently operate under that kind of pressure.",
   "Just be prepared to occasionally troubleshoot the debugger itself.",
   "He goes too far with bets."]

/-- Models `matches.extend(candidate.iter_matches_in_doc(&doc))`
(main.rs line 378): `extend` pulls every element of the iterator and appends
it to the buffer.  Returns the extended buffer together with the number of
iterator elements pulled. -/
def extendPull (buf : List Span) : List Span → List Span × Nat
  | [] => (buf, 0)
  | s :: rest =>
    let r := extendPull (buf ++ [s]) rest
    (r.1, r.2 + 1)

/-- Models `candidate.iter_matches_in_doc(&doc).count()` (main.rs line 388):
`count` drains the iterator.  Returns the count together with the number of
iterator elements pulled. -/
def countPull : List Span → Nat × Nat
  | [] => (0, 0)
  | _ :: rest =>
    let r := countPull rest
    (r.1 + 1, r.2 + 1)

/-- The problem-corpus loop of `score` (main.rs lines 374-383): for each
problem document the match buffer is cleared, refilled from the scan, and the
document counts as correct iff `matches.len() == 1`. -/
def scoreProblems (scan : Scan) : Nat :=
  problems.foldl (fun correct d =>
    let ms := (extendPull [] (scan d)).1
    if ms.length = 1 then correct + 1 else correct) 0

/-- `score` (main.rs lines 369-394): the problem loop above followed by the
clean-corpus loop, where a clean document counts as correct iff
`iter_matches_in_doc(..).count() == 0`.  The returned fitness is the plain
sum of correct documents. -/
def score (scan : Scan) : Nat :=
  clean.foldl (fun correct d =>
    if (countPull (scan d)).1 = 0 then correct + 1 else correct) (scoreProblems scan)

/-- The number of iterator elements `score` pulls while judging one problem
document (main.rs line 378: the buffer is refilled by `extend`). -/
def problemPulls (scan : Scan) (d : String) : Nat :=
  (extendPull [] (scan d)).2

/-- The number of iterator elements `score` pulls while judging one clean
document (main.rs line 388: `count()` drains the iterator). -/
def cleanPulls (scan : Scan) (d : String) : Nat :=
  (countPull (scan d)).2

/-! ## The expression-tree data model (`mirror.rs`) -/

/-- Enumeration of the 17 Universal Dependencies part-of-speech categories of
`harper_brill::UPOS` (the fixed finite tag set; the crate is external, only
the enumeration itself is needed). -/
inductive UPOS where
  | ADJ | ADP | ADV | AUX | CCONJ | DET | INTJ | NOUN | NUM | PART
  | PRON | PROPN | PUNCT | SCONJ | SYM | VERB | X
deriving DecidableEq, Repr

/-- Listing of `UPOS::iter()` in declaration order. -/
def allUPOS : List UPOS :=
  [.ADJ, .ADP, .ADV, .AUX, .CCONJ, .DET, .INTJ, .NOUN, .NUM, .PART,
   .PRON, .PROPN, .PUNCT, .SCONJ, .SYM, .VERB, .X]

/-- Atom type `MirrorAtom` (mirror.rs lines 46-51): the smallest matchable
unit.  The `UPOS` variant carries its `SmallVec<[UPOS; 16]>` tag collection
as a list (16 is only the inline capacity, not a bound). -/
inductive MirrorAtom where
  | Word (text : String)
  | UPOS (tags : List UPOS)
  | Whitespace
deriving DecidableEq, Repr

/-- Layer type `MirrorLayer` (mirror.rs lines 41-44): an ordered atom
sequence, compiled as a positional match. -/
structure MirrorLayer where
  seq : List MirrorAtom
deriving DecidableEq, Repr

/-- Tree type `MirrorNode` (mirror.rs lines 14-19): `And`/`Or` compose
subtrees, `Leaf` holds one layer. -/
inductive MirrorNode where
  | And (children : List MirrorNode)
  | Or (children : List MirrorNode)
  | Leaf (layer : MirrorLayer)
deriving Repr

/-- Default instance for `MirrorNode` (mirror.rs lines 21-25): a leaf with an
empty sequence. -/
instance : Inhabited MirrorNode := ⟨.Leaf ⟨[]⟩⟩

/-- Wrapper `Mirror` (mirror.rs lines 27-30): the candidate is its root node.
(The `main.rs` of this snapshot still uses an older layer-sequence shape of
`Mirror`; the claims about mutation cite `mirror.rs`.) -/
structure Mirror where
  root : MirrorNode
deriving Repr

/-! ## The compiled expression and its spec-modelled semantics -/

/-- Deep embedding of the three expression shapes `to_owned_expr` produces:
`SequenceExpr`, `All` and `LongestMatchOf` of `harper_core::expr` (an
external crate), so that their spec-described semantics can be stated. -/
inductive Expr where
  | seqE (atoms : List MirrorAtom)
  | all (children : List Expr)
  | longestMatchOf (children : List Expr)
deriving Repr

/-- Compilation `MirrorLayer::to_seq_expr` (mirror.rs lines 54-68): the atom
sequence is folded into a `SequenceExpr` (`then` for word sets and tag sets,
`t_ws` for whitespace); the matcher produced is the positional sequence of
exactly the atoms of the layer. -/
def MirrorLayer.to_seq_expr (layer : MirrorLayer) : Expr :=
  .seqE layer.seq

mutual

/-- Compilation `MirrorNode::to_owned_expr` (mirror.rs lines 134-152):
`Leaf` to a `SequenceExpr`, `And` to `All`, `Or` to `LongestMatchOf`; the
child vector is built by the explicit loop `to_owned_exprList`. -/
def MirrorNode.to_owned_expr : MirrorNode → Expr
  | .Leaf layer => layer.to_seq_expr
  | .And children => .all (MirrorNode.to_owned_exprList children)
  | .Or children => .longestMatchOf (MirrorNode.to_owned_exprList children)

/-- Loop body of `to_owned_expr` for a child vector (mirror.rs lines
138-141 and 145-148). -/
def MirrorNode.to_owned_exprList : List MirrorNode → List Expr
  | [] => []
  | c :: cs => c.to_owned_expr :: MirrorNode.to_owned_exprList cs

end

/-- Token of a tokenized document.  Modelled from the spec: the external
linguistic engine tags word tokens with a part-of-speech category and keeps
inter-token whitespace positions. -/
inductive Token where
  | word (text : String) (tag : UPOS)
  | ws
deriving DecidableEq, Repr

/-- Document as the matcher scans it: the token sequence the external engine
produces. -/
abbrev Doc := List Token

/-- Matching of a single atom against a single token.  Modelled from the
spec: a `Word` atom matches a token whose surface form equals its text, a
`UPOS` atom matches a token whose category is a member of its tag set, and a
`Whitespace` atom matches a whitespace position. -/
def atomMatches : MirrorAtom → Token → Bool
  | .Word w, .word t _ => t == w
  | .UPOS tags, .word _ tag => tags.contains tag
  | .Whitespace, .ws => true
  | _, _ => false

/-- Matching of a `SequenceExpr` at a position.  Modelled from the spec
(section 4.1): each atom must match the token at its offset, in order,
short-circuiting on the first mismatch. -/
def seqMatchesAt : List MirrorAtom → Doc → Nat → Bool
  | [], _, _ => true
  | a :: rest, doc, p =>
    match doc.get? p with
    | some tok => atomMatches a tok && seqMatchesAt rest doc (p + 1)
    | none => false

mutual

/-- Evaluation of a compiled matcher at a position.  Modelled from the spec
(sections 4.1 and 7): `All` matches where every child matches, so an `And`
of zero children matches everywhere trivially; `LongestMatchOf` matches
where at least one child matches, so an `Or` of zero children matches
nowhere. -/
def matchesAt : Expr → Doc → Nat → Bool
  | .seqE atoms, doc, p => seqMatchesAt atoms doc p
  | .all cs, doc, p => allMatchAt cs doc p
  | .longestMatchOf cs, doc, p => anyMatchAt cs doc p

/-- Conjunction over the children of an `All`. -/
def allMatchAt : List Expr → Doc → Nat → Bool
  | [], _, _ => true
  | c :: cs, doc, p => matchesAt c doc p && allMatchAt cs doc p

/-- Disjunction over the children of a `LongestMatchOf`. -/
def anyMatchAt : List Expr → Doc → Nat → Bool
  | [], _, _ => false
  | c :: cs, doc, p => matchesAt c doc p || anyMatchAt cs doc p

end

/-! ## The random-number model

Randomness is modelled as a stream of pending draws: every rng call consumes
the head of a list of naturals (an exhausted list keeps yielding zero).
Universally quantifying over the stream quantifies over every possible
sequence of random outcomes; a draw-dependent branch is reachable exactly
when some stream takes it. -/

/-- Stream of pseudo-random draws. -/
abbrev RandStream := List Nat

/-- Consumption of one raw draw from the stream. -/
def drawNat (s : RandStream) : Nat × RandStream := (s.headD 0, s.tailD [])

/-- Model of `rng.random_bool(p)` / `rand::random_bool(p)`: one draw, both
outcomes reachable (every probability in the source is strictly between 0
and 1); the outcome is the parity of the draw. -/
def coinFlip (s : RandStream) : Bool × RandStream :=
  (s.headD 0 % 2 == 0, s.tailD [])

/-- Model of `rng.random_range(lo..hi)` / `rng.gen_range`: one draw mapped
into `[lo, hi)`; `rand` panics exactly when the range is empty, modelled as
`none`.  An inclusive Rust range `lo..=hi` is `randRange lo (hi+1)`. -/
def randRange (lo hi : Nat) (s : RandStream) : Option (Nat × RandStream) :=
  if lo < hi then some (lo + s.headD 0 % (hi - lo), s.tailD []) else none

/-- Model of `SliceRandom::shuffle` (which never panics): repeated removal at
a drawn index, which reaches every permutation; the fuel is the list length.
The default element is never read, because the drawn index is always in
range. -/
def shuffleGo (dflt : α) : Nat → List α → RandStream → List α × RandStream
  | 0, _, s => ([], s)
  | _ + 1, [], s => ([], s)
  | n + 1, l@(_ :: _), s =>
    let d := drawNat s
    let i := d.1 % l.length
    let r := shuffleGo dflt n (l.eraseIdx i) d.2
    (l.getD i dflt :: r.1, r.2)

/-- Model of `IndexedRandom::choose_multiple(rng, amount)` (which never
panics): a random sample of `min amount len` distinct elements, as repeated
removal at a drawn index. -/
def chooseMultiple : Nat → List String → RandStream → List String × RandStream
  | 0, _, s => ([], s)
  | _ + 1, [], s => ([], s)
  | k + 1, l@(_ :: _), s =>
    let d := drawNat s
    let i := d.1 % l.length
    let r := chooseMultiple k (l.eraseIdx i) d.2
    (l.getD i "" :: r.1, r.2)

/-! ## `distinct_words` (main.rs lines 206-224) -/

/-- Model of `Vec::sort_unstable` on strings: sort ascending. -/
def sortStrings (l : List String) : List String :=
  l.mergeSort fun a b => decide (a ≤ b)

/-- Model of `Vec::dedup`: removal of consecutive repeats. -/
def dedupAdj : List String → List String
  | [] => []
  | [a] => [a]
  | a :: b :: rest =>
    if a == b then dedupAdj (b :: rest) else a :: dedupAdj (b :: rest)

/-- Function `distinct_words` (main.rs lines 206-224), with explicit
recursion fuel: the Rust function calls itself again, unconditionally, when
the sorted-deduplicated sample equals the sorted-deduplicated avoided list,
so its termination is not structurally evident.  A `none` result means the
fuel ran out with the recursion still running; the original function
terminates on an input (for the outcomes a stream describes) if and only if
some fuel returns `some`. -/
def distinctWords : Nat → List String → Nat → RandStream → Option (List String) →
    Option (List String × RandStream)
  | 0, _, _, _, _ => none
  | fuel + 1, pool, k, s, avoid =>
    let r := chooseMultiple (max k 1) pool s
    let out := dedupAdj (sortStrings r.1)
    match avoid with
    | some orig =>
      let a := dedupAdj (sortStrings orig)
      if a == out then distinctWords fuel pool k r.2 avoid
      else some (out, r.2)
    | none => some (out, r.2)

/-- Termination predicate for the model of `distinct_words`: the original
recursive function terminates on an input (for the outcomes the stream
describes) exactly when some recursion fuel makes the model return. -/
def distinctWordsTerminates (pool : List String) (k : Nat) (s : RandStream)
    (avoid : Option (List String)) : Prop :=
  ∃ fuel : Nat, (distinctWords fuel pool k s avoid).isSome = true

/-! ## The mutation operator (`mirror.rs`) -/

/-- Step generator `MirrorLayer::create_random_step` (mirror.rs lines
108-119).  The branch coins are `rand::random_bool` draws; the `UPOS` branch
shuffles the full tag enumeration and truncates it to a drawn length in
`[0, 17)` — length zero is drawn like any other length. -/
def createRandomStep (s : RandStream) : Option (MirrorAtom × RandStream) := do
  let (b1, s) := coinFlip s
  if b1 then
    let r := shuffleGo UPOS.X allUPOS.length allUPOS s
    let (t, s) ← randRange 0 r.1.length r.2
    pure (.UPOS (r.1.take t), s)
  else
    let (b2, s) := coinFlip s
    if b2 then pure (.Word "the", s)
    else pure (.Whitespace, s)

/-- Step mutation `MirrorLayer::mutate_step` (mirror.rs lines 86-106).  Rust
mutates the atom in place; the model returns the new atom.  The `&&` in the
`UPOS` guard short-circuits, so its coin is drawn exactly when the tag list
is non-empty; in the `Word` arm the coin is drawn first and the emptiness
test follows.  The `UPOS::iter().nth(i).unwrap()` is indexing of the full
enumeration at `i < 16 < 17`, so the unwrap cannot fail. -/
def mutateStep (a : MirrorAtom) (s : RandStream) : Option (MirrorAtom × RandStream) := do
  match a with
  | .UPOS tags =>
    let (tags, s) ←
      if tags.isEmpty then pure (tags, s)
      else do
        let (b, s) := coinFlip s
        if b then do
          let (i, s) ← randRange 0 tags.length s
          pure (tags.eraseIdx i, s)
        else pure (tags, s)
    let (b2, s) := coinFlip s
    if b2 then do
      let (i, s) ← randRange 0 16 s
      pure (.UPOS (tags ++ [allUPOS.getD i .X]), s)
    else pure (.UPOS tags, s)
  | .Word w =>
    let (b, s) := coinFlip s
    if b && !w.data.isEmpty then do
      let (t, s) ← randRange 1 (w.data.length + 1) s
      pure (.Word ⟨w.data.take t⟩, s)
    else pure (.Word w, s)
  | .Whitespace => pure (.Whitespace, s)

/-- Loop of `MirrorLayer::create_random_layer` pushing `len` random steps. -/
def createRandomSteps : Nat → RandStream → Option (List MirrorAtom × RandStream)
  | 0, s => pure ([], s)
  | n + 1, s => do
    let (a, s) ← createRandomStep s
    let (rest, s) ← createRandomSteps n s
    pure (a :: rest, s)

/-- Layer generator `MirrorLayer::create_random_layer` (mirror.rs lines
121-128): a drawn length in `[1, 3]`, then that many random steps. -/
def createRandomLayer (s : RandStream) : Option (MirrorLayer × RandStream) := do
  let (len, s) ← randRange 1 4 s
  let (seq, s) ← createRandomSteps len s
  pure (⟨seq⟩, s)

/-- Layer mutation `MirrorLayer::mutate` (mirror.rs lines 70-84).  The
`!is_empty() && random_bool(..)` guards short-circuit, so each coin is drawn
exactly when Rust draws it; in the tweak branch the index is drawn first and
is always in range, so the `getD` default is never read. -/
def MirrorLayer.mutateM (layer : MirrorLayer) (s : RandStream) :
    Option (MirrorLayer × RandStream) := do
  let seq := layer.seq
  let (seq, s) ←
    if seq.isEmpty then do
      let (i, s) ← randRange 0 (seq.length + 1) s
      let (a, s) ← createRandomStep s
      pure (seq.insertIdx i a, s)
    else do
      let (b, s) := coinFlip s
      if b then do
        let (i, s) ← randRange 0 seq.length s
        let (a', s) ← mutateStep (seq.getD i .Whitespace) s
        pure (seq.set i a', s)
      else do
        let (i, s) ← randRange 0 (seq.length + 1) s
        let (a, s) ← createRandomStep s
        pure (seq.insertIdx i a, s)
  if seq.isEmpty then pure (⟨seq⟩, s)
  else do
    let (b, s) := coinFlip s
    if b then do
      let (i, s) ← randRange 0 seq.length s
      pure (⟨seq.eraseIdx i⟩, s)
    else pure (⟨seq⟩, s)

mutual

/-- Height of a tree: an exact bound on the recursion depth of
`MirrorNode::mutate`, used as the fuel of its model. -/
def MirrorNode.height : MirrorNode → Nat
  | .Leaf _ => 1
  | .And cs => 1 + MirrorNode.heightList cs
  | .Or cs => 1 + MirrorNode.heightList cs

/-- Maximum height over a child list. -/
def MirrorNode.heightList : List MirrorNode → Nat
  | [] => 0
  | c :: cs => max c.height (MirrorNode.heightList cs)

end

mutual

/-- Tree mutation `MirrorNode::mutate` (mirror.rs lines 159-225), with an
explicit recursion-depth fuel (the Rust recursion is structural on the tree,
so any fuel of at least the tree height — as the wrapper `mutateM` passes —
behaves identically; the fuel-out branch is unreachable from the wrapper).
In the `Leaf` arm: with the first coin, tweak the layer; otherwise build a
fresh random leaf and wrap both under a drawn `And`/`Or`. -/
def mutateNodeF : Nat → MirrorNode → RandStream → Option (MirrorNode × RandStream)
  | 0, _, _ => none
  | fuel + 1, .Leaf layer, s => do
    let (b, s) := coinFlip s
    if b then do
      let (l', s) ← layer.mutateM s
      pure (.Leaf l', s)
    else do
      let (nl, s) ← createRandomLayer s
      let (b2, s) := coinFlip s
      if b2 then pure (.And [.Leaf layer, .Leaf nl], s)
      else pure (.Or [.Leaf layer, .Leaf nl], s)
  | fuel + 1, .And children, s => branchMutateF fuel true children s
  | fuel + 1, .Or children, s => branchMutateF fuel false children s
termination_by fuel _ _ => (fuel, 0, 0)

/-- Reorder phase of the `And(children) | Or(children)` arm (mirror.rs
lines 188-191): when there are at least two children, a coin decides whether
to shuffle them (`len >= 2 && rng.random_bool(0.1)` short-circuits, so the
coin is drawn exactly when `len >= 2`). -/
def branchReorder (len : Nat) (children : List MirrorNode) (s : RandStream) :
    List MirrorNode × RandStream :=
  if 2 ≤ len then
    let (bSh, s) := coinFlip s
    if bSh then shuffleGo default len children s
    else (children, s)
  else (children, s)

/-- Collapse-singleton / wrap-pair phase of the `And(children) | Or(children)`
arm (mirror.rs lines 206-222): a singleton child list is occasionally
replaced by its only child; with at least two children, occasionally two
adjacent children are removed and re-inserted wrapped under a drawn
`And`/`Or` pair; otherwise the node is rebuilt with its own kind.  The
`&&`-guarded coins are drawn exactly when Rust draws them. -/
def branchFinish (isAnd : Bool) (children : List MirrorNode) (s : RandStream) :
    Option (MirrorNode × RandStream) := do
  if children.length == 1 then do
    let (bCol, s) := coinFlip s
    if bCol then pure (children.getD 0 default, s)
    else pure (if isAnd then .And children else .Or children, s)
  else if 2 ≤ children.length then do
    let (bWrap, s) := coinFlip s
    if bWrap then do
      let (idx, s) ← randRange 0 (children.length - 1) s
      let a := children.getD idx default
      let children := children.eraseIdx idx
      let b := children.getD idx default
      let children := children.eraseIdx idx
      let (bAnd, s) := coinFlip s
      let wrapped := if bAnd then MirrorNode.And [a, b] else MirrorNode.Or [a, b]
      pure (if isAnd then .And (children.insertIdx idx wrapped)
            else .Or (children.insertIdx idx wrapped), s)
    else pure (if isAnd then .And children else .Or children, s)
  else pure (if isAnd then .And children else .Or children, s)

/-- Insert / remove / recurse phase of the `And(children) | Or(children)` arm
(mirror.rs lines 193-204): with a coin, insert a fresh random leaf child at a
drawn index; otherwise, when more than one child, a coin may remove a drawn
child; otherwise recurse into a drawn child of the (possibly reordered)
list.  The `&&`-guarded coins are drawn exactly when Rust draws them. -/
def branchEdit (fuel len : Nat) (children : List MirrorNode) (s : RandStream) :
    Option (List MirrorNode × RandStream) := do
  let (bIns, s) := coinFlip s
  if bIns then do
    let (idx, s) ← randRange 0 (len + 1) s
    let (nl, s) ← createRandomLayer s
    pure (children.insertIdx idx (.Leaf nl), s)
  else if 1 < len then do
    let (bRem, s) := coinFlip s
    if bRem then do
      let (idx, s) ← randRange 0 len s
      pure (children.eraseIdx idx, s)
    else if children.isEmpty then pure (children, s)
    else do
      let (idx, s) ← randRange 0 children.length s
      mutateAtF fuel children idx s
  else if children.isEmpty then pure (children, s)
  else do
    let (idx, s) ← randRange 0 children.length s
    mutateAtF fuel children idx s
termination_by (fuel, 2, 0)

/-- Shared `And(children) | Or(children)` arm of `MirrorNode::mutate`
(mirror.rs lines 174-223): occasionally flip the operator and return;
otherwise run the reorder, edit and finish phases in sequence (`len` is the
pre-reorder length, exactly as the Rust binding at line 175). -/
def branchMutateF (fuel : Nat) (isAnd : Bool) (children : List MirrorNode)
    (s : RandStream) : Option (MirrorNode × RandStream) := do
  let len := children.length
  let (bFlip, s) := coinFlip s
  if bFlip then
    pure (if isAnd then .Or children else .And children, s)
  else do
    let (children, s) := branchReorder len children s
    let (children, s) ← branchEdit fuel len children s
    branchFinish isAnd children s
termination_by (fuel, 3, 0)

/-- Model of `children[idx].mutate(rng)`: the `idx`-th child is replaced by
its mutation (the empty-list arm is unreachable, because the caller draws
`idx` within range of a non-empty list). -/
def mutateAtF (fuel : Nat) : List MirrorNode → Nat → RandStream →
    Option (List MirrorNode × RandStream)
  | [], _, s => pure ([], s)
  | c :: cs, 0, s => do
    let (c', s) ← mutateNodeF fuel c s
    pure (c' :: cs, s)
  | c :: cs, n + 1, s => do
    let (cs', s) ← mutateAtF fuel cs n s
    pure (c :: cs', s)
termination_by l _ _ => (fuel, 1, l.length)

end

/-- Wrapper giving `MirrorNode::mutate` its exact recursion-depth fuel. -/
def MirrorNode.mutateM (n : MirrorNode) (s : RandStream) :
    Option (MirrorNode × RandStream) :=
  mutateNodeF n.height n s

/-- Root mutation `Mirror::mutate` (mirror.rs lines 251-274): with the first
coin, wrap the old root together with a fresh random leaf under a drawn
`And`/`Or` — note the `std::mem::replace` placeholder, a throwaway random
layer created (consuming rng draws) only to take ownership of the old root;
with the second coin, replace the root by a fresh random leaf; otherwise
recurse into the root. -/
def Mirror.mutateM (m : Mirror) (s : RandStream) : Option (Mirror × RandStream) := do
  let (bWrap, s) := coinFlip s
  if bWrap then do
    let (wrapperIsAnd, s) := coinFlip s
    let (sib, s) ← createRandomLayer s
    let (_placeholder, s) ← createRandomLayer s
    if wrapperIsAnd then pure (⟨.And [m.root, .Leaf sib]⟩, s)
    else pure (⟨.Or [m.root, .Leaf sib]⟩, s)
  else do
    let (bReset, s) := coinFlip s
    if bReset then do
      let (l, s) ← createRandomLayer s
      pure (⟨.Leaf l⟩, s)
    else do
      let (root, s) ← MirrorNode.mutateM m.root s
      pure (⟨root⟩, s)

/-- Inner loop of `create_children_with_mutations`: `mutation_count`
sequential mutations of one clone. -/
def Mirror.mutateTimes : Nat → Mirror → RandStream → Option (Mirror × RandStream)
  | 0, m, s => pure (m, s)
  | k + 1, m, s => do
    let (m, s) ← m.mutateM s
    Mirror.mutateTimes k m s

/-- Reproduction `Mirror::create_children_with_mutations` (mirror.rs lines
233-249): `child_count` children, each a fresh clone of the parent to which
a drawn number of mutations in `[1, max_mutations]` is applied
(`rng.gen_range(1..=max_mutations)` panics when `max_mutations` is zero). -/
def Mirror.createChildren (parent : Mirror) : Nat → Nat → RandStream →
    Option (List Mirror × RandStream)
  | 0, _, s => pure ([], s)
  | n + 1, maxMutations, s => do
    let (k, s) ← randRange 1 (maxMutations + 1) s
    let (child, s) ← Mirror.mutateTimes k parent s
    let (rest, s) ← Mirror.createChildren parent n maxMutations s
    pure (child :: rest, s)

/-! ## Reachable atoms (for the atom invariants) -/

/-- Atoms reachable in a run: those `create_random_step` constructs, closed
under `mutate_step` (every atom a layer ever holds enters by one of the two,
and layer- and tree-level mutation touch atoms only through them). -/
inductive ReachableAtom : MirrorAtom → Prop where
  | created (s s' : RandStream) (a : MirrorAtom) :
      createRandomStep s = some (a, s') → ReachableAtom a
  | mutated (a a' : MirrorAtom) (s s' : RandStream) :
      ReachableAtom a → mutateStep a s = some (a', s') → ReachableAtom a'

/-! ## Structural complexity (for the simplicity-bonus claim) -/

/-- Complexity of one atom.  Modelled from the spec (section 4.2): 1 per
`Word` atom, `|tags|` per tag-set atom, 1 per `Whitespace` atom (the spec
text for the data model says whitespace costs zero, its fitness section says
1 per whitespace atom; either choice works below, because `score` in the
source computes no complexity at all).  No complexity function exists under
`src/`. -/
def atomComplexity : MirrorAtom → Nat
  | .Word _ => 1
  | .UPOS tags => tags.length
  | .Whitespace => 1

/-- Fixed structural penalty per internal node.  Modelled from the spec
(section 4.2): a constant, e.g. 2. -/
def structuralPenalty : Nat := 2

mutual

/-- Complexity of a tree.  Modelled from the spec (section 4.2): the sum of
the atom complexities over all leaf sequences plus the structural penalty
per internal `And`/`Or` node. -/
def MirrorNode.complexity : MirrorNode → Nat
  | .Leaf layer => (layer.seq.map atomComplexity).sum
  | .And cs => structuralPenalty + MirrorNode.complexityList cs
  | .Or cs => structuralPenalty + MirrorNode.complexityList cs

/-- Summed complexity of a child list. -/
def MirrorNode.complexityList : List MirrorNode → Nat
  | [] => 0
  | c :: cs => c.complexity + MirrorNode.complexityList cs

end

/-! ## The selection step (main.rs lines 37-48) -/

/-- Population member as the evolutionary loop sees it: its tree together
with the span sequences the external engine yields for the compiled tree. -/
structure Candidate where
  tree : MirrorNode
  scan : Scan

/-- Value of `usize::MAX` on the 64-bit target. -/
def usizeMax : Nat := 2 ^ 64 - 1

/-- Cached sort key of the selection step (main.rs line 38):
`usize::MAX - score(..)`, so that ascending order by key is descending order
by score. -/
def sortKey (c : Candidate) : Nat := usizeMax - score c.scan

/-- Selection (main.rs lines 38 and 48): `par_sort_by_cached_key` — a stable
ascending sort by the cached key — followed by `truncate(min_pop)`. -/
def select (minPop : Nat) (pop : List Candidate) : List Candidate :=
  (pop.mergeSort fun a b => decide (sortKey a ≤ sortKey b)).take minPop

/-- Individuals the `truncate` of the selection step discards. -/
def discarded (minPop : Nat) (pop : List Candidate) : List Candidate :=
  (pop.mergeSort fun a b => decide (sortKey a ≤ sortKey b)).drop minPop


/-! ## Concrete scans and candidates used in counterexamples and witnesses -/

/-- Scan yielding no match on any document. -/
def scanNone : Scan := fun _ => []

/-- Scan yielding exactly one span on exactly one problem document (the
first problem sentence, which does not occur in the clean corpus). -/
def scanProblemHit : Scan :=
  fun d => if d == "I need too finish this report before noon." then [(0, 0)] else []

/-- Scan yielding exactly one span on exactly one clean document (a clean
sentence that does not occur in the problem corpus). -/
def scanCleanHit : Scan :=
  fun d => if d == "I am too hungry." then [(0, 0)] else []

/-- Scan yielding three spans on every document. -/
def scanThree : Scan := fun _ => [(0, 1), (2, 3), (4, 5)]

/-- Candidate with a single-word leaf tree and a matchless scan. -/
def simpleCand : Candidate := ⟨.Leaf ⟨[.Word "the"]⟩, scanNone⟩

/-- Candidate whose tree is an `And` of two copies of the `simpleCand` leaf
(semantically identical matcher, strictly higher structural complexity) and
the same matchless scan. -/
def compoundCand : Candidate := ⟨.And [.Leaf ⟨[.Word "the"]⟩, .Leaf ⟨[.Word "the"]⟩], scanNone⟩

/-! ## Theorems -/

lemma extendPull_eq (buf l) : extendPull buf l = (buf ++ l, l.length) := by
  induction l generalizing buf with
  | nil => simp [extendPull]
  | cons s rest ih => simp [extendPull, ih]

lemma countPull_eq (l : List Span) : countPull l = (l.length, l.length) := by
  induction l with
  | nil => simp [countPull]
  | cons s rest ih => simp [countPull, ih]

lemma foldl_count (p : String → Bool) (l : List String) (n : Nat) :
    l.foldl (fun c d => if p d then c + 1 else c) n = n + l.countP p := by
  induction l generalizing n with
  | nil => simp
  | cons d rest ih =>
    by_cases h : p d <;> simp [List.countP_cons, h, ih, Nat.add_comm, Nat.add_assoc,
      Nat.add_left_comm]

lemma scoreLoop_problems (scan : Scan) (l : List String) (n : Nat) :
    l.foldl (fun correct d =>
        let ms := (extendPull [] (scan d)).1
        if ms.length = 1 then correct + 1 else correct) n
      = n + l.countP (fun d => (scan d).length == 1) := by
  induction l generalizing n with
  | nil => simp
  | cons d rest ih =>
    rw [List.foldl_cons, List.countP_cons, ih]
    by_cases h : (scan d).length = 1 <;> simp [extendPull_eq, h] <;> omega

lemma scoreLoop_clean (scan : Scan) (l : List String) (n : Nat) :
    l.foldl (fun correct d =>
        if (countPull (scan d)).1 = 0 then correct + 1 else correct) n
      = n + l.countP (fun d => (scan d).length == 0) := by
  induction l generalizing n with
  | nil => simp
  | cons d rest ih =>
    rw [List.foldl_cons, List.countP_cons, ih]
    by_cases h : (scan d).length = 0 <;> simp [countPull_eq, h] <;> omega

lemma scoreProblems_eq (scan : Scan) :
    scoreProblems scan = problems.countP (fun d => (scan d).length == 1) := by
  simpa using scoreLoop_problems scan problems 0

lemma score_eq (scan : Scan) :
    score scan = scoreProblems scan + clean.countP (fun d => (scan d).length == 0) := by
  simpa [score] using scoreLoop_clean scan clean (scoreProblems scan)

/-- C1: For every candidate and every problem-corpus document, the fitness
evaluator counts that document as correct iff the scan yields exactly one
match span: the problem loop of `score` counts precisely the documents whose
span list has length 1, and having length other than 1 is the same as having
zero or at least two spans. -/
theorem problem_doc_correct_iff_exactly_one :
    (∀ scan : Scan,
      scoreProblems scan = problems.countP (fun d => (scan d).length == 1))
    ∧ (∀ l : List Span, l.length ≠ 1 ↔ (l.length = 0 ∨ 2 ≤ l.length)) := by
  constructor
  · exact scoreProblems_eq
  · intro l
    omega

/-- C2: For every candidate and every clean-corpus document, the fitness
evaluator counts that document as correct iff the scan yields zero match
spans: the clean loop of `score` adds precisely the number of clean documents
whose span list is empty, and the drained count is zero iff there is no match. -/
theorem clean_doc_correct_iff_zero :
    (∀ scan : Scan,
      score scan = scoreProblems scan + clean.countP (fun d => (scan d).length == 0))
    ∧ (∀ l : List Span, (countPull l).1 = 0 ↔ l = []) := by
  constructor
  · exact score_eq
  · intro l
    simp [countPull_eq, List.length_eq_zero]

lemma score_le_total (scan : Scan) : score scan ≤ 133 := by
  rw [score_eq, scoreProblems_eq]
  have h1 := List.countP_le_length (fun d => (scan d).length == 1) (l := problems)
  have h2 := List.countP_le_length (fun d => (scan d).length == 0) (l := clean)
  have hp : problems.length = 40 := by rfl
  have hc : clean.length = 93 := by rfl
  omega

lemma sortKey_trans : ∀ a b c : Candidate,
    decide (sortKey a ≤ sortKey b) = true → decide (sortKey b ≤ sortKey c) = true →
    decide (sortKey a ≤ sortKey c) = true := by
  intro a b c hab hbc
  simp only [decide_eq_true_eq] at *
  omega

lemma sortKey_total : ∀ a b : Candidate,
    (decide (sortKey a ≤ sortKey b) || decide (sortKey b ≤ sortKey a)) = true := by
  intro a b
  simp only [Bool.or_eq_true, decide_eq_true_eq]
  omega

/-- C4: after the selection step the population size equals
`min (min_pop) (pre-truncation size)`, and every retained candidate scores
at least as high as every discarded one: the population is sorted ascending
by the cached key `usizeMax - score` — that is, descending by score — and
then truncated to `min_pop`. -/
theorem selection_truncation_invariant :
    ∀ (minPop : Nat) (pop : List Candidate),
      (select minPop pop).length = min minPop pop.length
      ∧ ∀ x ∈ select minPop pop, ∀ y ∈ discarded minPop pop,
          score y.scan ≤ score x.scan := by
  intro minPop pop
  constructor
  · simp [select, List.length_mergeSort]
  · intro x hx y hy
    have hsorted := List.sorted_mergeSort sortKey_trans sortKey_total pop
    rw [← List.take_append_drop minPop
      (pop.mergeSort fun a b => decide (sortKey a ≤ sortKey b)),
      List.pairwise_append] at hsorted
    have hkey : sortKey x ≤ sortKey y := by
      have := hsorted.2.2 x hx y hy
      simpa using this
    have hxb := score_le_total x.scan
    have hyb := score_le_total y.scan
    have hU : usizeMax = 18446744073709551615 := by norm_num [usizeMax]
    simp only [sortKey, hU] at hkey
    omega

/-- C3 counterexample: `compoundCand` and `simpleCand` compile to matchers
with identical behaviour at every position of every document (an `And` of
two copies matches exactly where one copy does) and share the same scan, so
their correctness outcomes are identical on every document; `simpleCand` has
strictly lower structural complexity, yet its score is not strictly higher —
`score` computes no simplicity bonus, so the scores are equal. -/
theorem simplicity_bonus_counterexample :
    (∀ (doc : Doc) (p : Nat),
      matchesAt compoundCand.tree.to_owned_expr doc p
        = matchesAt simpleCand.tree.to_owned_expr doc p)
    ∧ simpleCand.tree.complexity < compoundCand.tree.complexity
    ∧ simpleCand.scan = compoundCand.scan
    ∧ ¬ score simpleCand.scan > score compoundCand.scan := by
  refine ⟨?_, ?_, rfl, ?_⟩
  · intro doc p
    simp [simpleCand, compoundCand, MirrorNode.to_owned_expr,
      MirrorNode.to_owned_exprList, MirrorLayer.to_seq_expr, matchesAt, allMatchAt,
      Bool.and_comm]
  · decide
  · simp [simpleCand, compoundCand]

/-- C3 amended: two candidates with identical correctness outcomes on every
problem and clean document receive identical scores, whatever their
complexities — the fitness function of the source computes no simplicity
bonus at all, so lower complexity never yields a strictly higher score. -/
theorem equal_outcomes_equal_scores :
    ∀ c₁ c₂ : Candidate,
      (∀ d ∈ problems, (c₁.scan d).length = 1 ↔ (c₂.scan d).length = 1) →
      (∀ d ∈ clean, (c₁.scan d).length = 0 ↔ (c₂.scan d).length = 0) →
      score c₁.scan = score c₂.scan := by
  intro c₁ c₂ h₁ h₂
  rw [score_eq, score_eq, scoreProblems_eq, scoreProblems_eq]
  have e₁ : problems.countP (fun d => (c₁.scan d).length == 1)
      = problems.countP (fun d => (c₂.scan d).length == 1) := by
    refine List.countP_congr ?_
    intro d hd
    simpa using h₁ d hd
  have e₂ : clean.countP (fun d => (c₁.scan d).length == 0)
      = clean.countP (fun d => (c₂.scan d).length == 0) := by
    refine List.countP_congr ?_
    intro d hd
    simpa using h₂ d hd
  omega

/-- Witness for the amended C3 theorem at the two concrete candidates. -/
theorem equal_outcomes_equal_scores_witness :
    score simpleCand.scan = score compoundCand.scan :=
  equal_outcomes_equal_scores simpleCand compoundCand
    (fun _ _ => Iff.rfl) (fun _ _ => Iff.rfl)

/-- C7 counterexample: flipping one problem document from incorrect to
correct raises the score by exactly 1, and so does flipping one clean
document — the two corpora are weighted identically (1:1), so a problem
outcome does not contribute strictly less than a clean outcome. -/
theorem unit_weights_counterexample :
    score scanProblemHit = score scanNone + 1
    ∧ score scanNone = score scanCleanHit + 1
    ∧ ¬ ((score scanProblemHit - score scanNone)
          < (score scanNone - score scanCleanHit)) := by
  refine ⟨by decide, by decide, by decide⟩

/-- C7 amended: every document contributes exactly one unit to the score:
if two candidates agree on clean outcomes and the first has one more correct
problem document, its score is exactly one higher, and symmetrically with
the corpora swapped — the problem/clean weighting is exactly 1:1. -/
theorem per_document_unit_contribution :
    ∀ f g : Scan,
      (problems.countP (fun d => (f d).length == 1)
          = problems.countP (fun d => (g d).length == 1) + 1 →
        clean.countP (fun d => (f d).length == 0)
          = clean.countP (fun d => (g d).length == 0) →
        score f = score g + 1)
      ∧ (clean.countP (fun d => (f d).length == 0)
          = clean.countP (fun d => (g d).length == 0) + 1 →
        problems.countP (fun d => (f d).length == 1)
          = problems.countP (fun d => (g d).length == 1) →
        score f = score g + 1) := by
  intro f g
  constructor <;>
    · intro h₁ h₂
      rw [score_eq, score_eq, scoreProblems_eq, scoreProblems_eq]
      omega

/-- Witness for the amended C7 theorem: one problem flip at
`scanProblemHit` versus `scanNone`, one clean flip at `scanNone` versus
`scanCleanHit`. -/
theorem per_document_unit_contribution_witness :
    score scanProblemHit = score scanNone + 1
    ∧ score scanNone = score scanCleanHit + 1 :=
  ⟨(per_document_unit_contribution scanProblemHit scanNone).1
      (by decide) (by decide),
    (per_document_unit_contribution scanNone scanCleanHit).2
      (by decide) (by decide)⟩

/-- C8 amended: the evaluator never early-exits: judging a document pulls
every element of the match iterator, because `extend` (problem loop) and
`count` (clean loop) both drain it — the number of enumerated matches always
equals the full match count of the document. -/
theorem evaluation_drains_iterator :
    ∀ (scan : Scan) (d : String),
      problemPulls scan d = (scan d).length
      ∧ cleanPulls scan d = (scan d).length := by
  intro scan d
  constructor
  · simp [problemPulls, extendPull_eq]
  · simp [cleanPulls, countPull_eq]

/-- C8 counterexample: with a candidate whose scan yields three spans, the
problem loop enumerates all three matches — not stopping at the second,
which already disproves "exactly one" — and the clean loop also enumerates
all three — not stopping at the first, which already disproves "zero". -/
theorem early_exit_counterexample :
    problemPulls scanThree "I need too finish this report before noon." = 3
    ∧ cleanPulls scanThree "I am too hungry." = 3
    ∧ ¬ problemPulls scanThree "I need too finish this report before noon." ≤ 2
    ∧ ¬ cleanPulls scanThree "I am too hungry." ≤ 1 := by
  refine ⟨by decide, by decide, by decide, by decide⟩

lemma randRange_ne_none (lo hi : Nat) (s : RandStream) (h : lo < hi) :
    randRange lo hi s ≠ none := by
  simp [randRange, h]

lemma randRange_some (lo hi : Nat) (s : RandStream) (v : Nat) (s' : RandStream)
    (h : randRange lo hi s = some (v, s')) : lo ≤ v ∧ v < hi := by
  by_cases hlt : lo < hi
  · simp only [randRange, if_pos hlt, Option.some.injEq, Prod.mk.injEq] at h
    have := Nat.mod_lt (s.headD 0) (Nat.sub_pos_of_lt hlt)
    omega
  · simp [randRange, hlt] at h

lemma shuffleGo_length {α : Type} (dflt : α) : ∀ (n : Nat) (l : List α) (s : RandStream),
    (shuffleGo dflt n l s).1.length = min n l.length := by
  intro n
  induction n with
  | zero => intro l s; simp [shuffleGo]
  | succ n ih =>
    intro l s
    cases l with
    | nil => simp [shuffleGo]
    | cons a l' =>
      show ((a :: l').getD _ dflt :: (shuffleGo dflt n _ _).1).length = _
      rw [List.length_cons, ih, List.length_eraseIdx]
      have hm := Nat.mod_lt (drawNat s).1 (y := (a :: l').length) (by simp)
      simp only [List.length_cons] at *
      rw [if_pos hm]
      omega

lemma shuffleGo_mem {α : Type} (dflt : α) : ∀ (n : Nat) (l : List α) (s : RandStream),
    ∀ x ∈ (shuffleGo dflt n l s).1, x ∈ l := by
  intro n
  induction n with
  | zero => intro l s x hx; simp [shuffleGo] at hx
  | succ n ih =>
    intro l s x hx
    cases l with
    | nil => simp [shuffleGo] at hx
    | cons a l' =>
      have hm : (drawNat s).1 % (a :: l').length < (a :: l').length :=
        Nat.mod_lt _ (by simp)
      rw [show shuffleGo dflt (n + 1) (a :: l') s
          = ((a :: l').getD ((drawNat s).1 % (a :: l').length) dflt
              :: (shuffleGo dflt n ((a :: l').eraseIdx ((drawNat s).1 % (a :: l').length)) (drawNat s).2).1,
             (shuffleGo dflt n ((a :: l').eraseIdx ((drawNat s).1 % (a :: l').length)) (drawNat s).2).2) from rfl] at hx
      rcases List.mem_cons.mp hx with h | h
      · rw [h, List.getD_eq_getElem _ _ hm]
        exact List.getElem_mem hm
      · exact List.eraseIdx_subset _ _ (ih _ _ x h)

lemma bindTotal {β γ : Type} {o : Option β} {f : β → Option γ}
    (ho : o ≠ none) (hf : ∀ b, ∃ r, f b = some r) : ∃ r, (o >>= f) = some r := by
  cases o with
  | none => exact absurd rfl ho
  | some b =>
    obtain ⟨r, hr⟩ := hf b
    exact ⟨r, by simpa using hr⟩

lemma createRandomStep_total (s : RandStream) : ∃ r, createRandomStep s = some r := by
  unfold createRandomStep
  simp only [coinFlip, Option.pure_def, Option.bind_eq_bind, Option.some_bind]
  split
  · apply bindTotal
    · apply randRange_ne_none
      rw [shuffleGo_length]
      decide
    · rintro ⟨t, s'⟩
      exact ⟨_, rfl⟩
  · split
    · exact ⟨_, rfl⟩
    · exact ⟨_, rfl⟩

lemma mutateStep_total (a : MirrorAtom) (s : RandStream) : ∃ r, mutateStep a s = some r := by
  unfold mutateStep
  match a with
  | .Whitespace => exact ⟨_, rfl⟩
  | .Word w =>
    simp only [coinFlip, Option.pure_def, Option.bind_eq_bind, Option.some_bind]
    split
    case isTrue hb =>
      apply bindTotal
      · apply randRange_ne_none
        have hne : w.data ≠ [] := by
          intro hnil
          rw [Bool.and_eq_true] at hb
          simp [hnil] at hb
        have := List.length_pos.mpr hne
        omega
      · rintro ⟨t, s'⟩
        exact ⟨_, rfl⟩
    case isFalse => exact ⟨_, rfl⟩
  | .UPOS tags =>
    simp only [coinFlip, Option.pure_def, Option.bind_eq_bind, Option.some_bind]
    split
    case isTrue he =>
      split
      case isTrue hb2 =>
        apply bindTotal
        · exact randRange_ne_none _ _ _ (by omega)
        · rintro ⟨i, s''⟩
          exact ⟨_, rfl⟩
      case isFalse => exact ⟨_, rfl⟩
    case isFalse he =>
      split
      case isTrue hb =>
        apply bindTotal
        · apply randRange_ne_none
          have hne : tags ≠ [] := by
            intro hnil
            exact he (by simp [hnil])
          have := List.length_pos.mpr hne
          omega
        · rintro ⟨i, s''⟩
          simp only [Option.some_bind]
          split
          case isTrue hb2 =>
            apply bindTotal
            · exact randRange_ne_none _ _ _ (by omega)
            · rintro ⟨j, s₃⟩
              exact ⟨_, rfl⟩
          case isFalse => exact ⟨_, rfl⟩
      case isFalse hb =>
        split
        case isTrue hb2 =>
          apply bindTotal
          · exact randRange_ne_none _ _ _ (by omega)
          · rintro ⟨j, s₃⟩
            exact ⟨_, rfl⟩
        case isFalse => exact ⟨_, rfl⟩

lemma createRandomSteps_total : ∀ (n : Nat) (s : RandStream),
    ∃ r, createRandomSteps n s = some r := by
  intro n
  induction n with
  | zero => intro s; exact ⟨_, rfl⟩
  | succ n ih =>
    intro s
    unfold createRandomSteps
    apply bindTotal
    · obtain ⟨r, hr⟩ := createRandomStep_total s
      simp [hr]
    · rintro ⟨a, s'⟩
      apply bindTotal
      · obtain ⟨r, hr⟩ := ih s'
        simp [hr]
      · rintro ⟨rest, s''⟩
        exact ⟨_, rfl⟩

lemma createRandomLayer_total (s : RandStream) : ∃ r, createRandomLayer s = some r := by
  unfold createRandomLayer
  apply bindTotal
  · exact randRange_ne_none _ _ _ (by omega)
  · rintro ⟨len, s'⟩
    apply bindTotal
    · obtain ⟨r, hr⟩ := createRandomSteps_total len s'
      simp [hr]
    · rintro ⟨seq, s''⟩
      exact ⟨_, rfl⟩

lemma layerMutate_total (layer : MirrorLayer) (s : RandStream) :
    ∃ r, MirrorLayer.mutateM layer s = some r := by
  have phase2 : ∀ (seq : List MirrorAtom) (s : RandStream),
      ∃ r, (if seq.isEmpty = true then (some (⟨seq⟩, s) : Option (MirrorLayer × RandStream))
        else if (s.headD 0 % 2 == 0) = true then
          (randRange 0 seq.length (s.tailD [])).bind fun i =>
            some (⟨seq.eraseIdx i.1⟩, i.2)
        else some (⟨seq⟩, s.tailD [])) = some r := by
    intro seq s
    split
    · exact ⟨_, rfl⟩
    case isFalse he =>
      split
      · apply bindTotal
        · apply randRange_ne_none
          have hne : seq ≠ [] := fun hnil => he (by simp [hnil])
          have := List.length_pos.mpr hne
          omega
        · rintro ⟨i, s'⟩
          exact ⟨_, rfl⟩
      · exact ⟨_, rfl⟩
  unfold MirrorLayer.mutateM
  simp only [coinFlip, Option.pure_def, Option.bind_eq_bind, Option.some_bind]
  split
  case isTrue he =>
    apply bindTotal
    · exact randRange_ne_none _ _ _ (by omega)
    · rintro ⟨i, s'⟩
      apply bindTotal
      · obtain ⟨r, hr⟩ := createRandomStep_total s'
        simp [hr]
      · rintro ⟨a, s''⟩
        exact phase2 _ _
  case isFalse he =>
    split
    case isTrue hb =>
      apply bindTotal
      · apply randRange_ne_none
        have hne : layer.seq ≠ [] := fun hnil => he (by simp [hnil])
        have := List.length_pos.mpr hne
        omega
      · rintro ⟨i, s'⟩
        apply bindTotal
        · obtain ⟨r, hr⟩ := mutateStep_total (layer.seq[i]?.getD .Whitespace) s'
          simp [hr]
        · rintro ⟨a', s''⟩
          exact phase2 _ _
    case isFalse hb =>
      apply bindTotal
      · exact randRange_ne_none _ _ _ (by omega)
      · rintro ⟨i, s'⟩
        apply bindTotal
        · obtain ⟨r, hr⟩ := createRandomStep_total s'
          simp [hr]
        · rintro ⟨a, s''⟩
          exact phase2 _ _

lemma height_pos (n : MirrorNode) : 1 ≤ n.height := by
  match n with
  | .Leaf _ => simp [MirrorNode.height]
  | .And cs => simp [MirrorNode.height]
  | .Or cs => simp [MirrorNode.height]

lemma heightList_mem : ∀ (cs : List MirrorNode), ∀ c ∈ cs, c.height ≤ MirrorNode.heightList cs := by
  intro cs
  induction cs with
  | nil => intro c hc; simp at hc
  | cons d ds ih =>
    intro c hc
    rcases List.mem_cons.mp hc with h | h
    · rw [h, MirrorNode.heightList]
      exact le_max_left _ _
    · exact le_trans (ih c h) (by rw [MirrorNode.heightList]; exact le_max_right _ _)

lemma heightList_le (cs ds : List MirrorNode) (h : ∀ c ∈ cs, c ∈ ds) :
    MirrorNode.heightList cs ≤ MirrorNode.heightList ds := by
  induction cs with
  | nil => simp [MirrorNode.heightList]
  | cons c cs ih =>
    rw [MirrorNode.heightList]
    refine max_le ?_ (ih fun x hx => h x (List.mem_cons_of_mem c hx))
    exact heightList_mem ds c (h c (List.mem_cons_self c cs))

lemma mutateAt_total (fuel : Nat)
    (ih : ∀ (n : MirrorNode) (s : RandStream), n.height ≤ fuel →
      ∃ r, mutateNodeF fuel n s = some r) :
    ∀ (cs : List MirrorNode) (idx : Nat) (s : RandStream),
      MirrorNode.heightList cs ≤ fuel →
      ∃ r, mutateAtF fuel cs idx s = some r := by
  intro cs
  induction cs with
  | nil => intro idx s h; simp [mutateAtF]
  | cons c cs ihl =>
    intro idx s h
    rw [MirrorNode.heightList] at h
    match idx with
    | 0 =>
      unfold mutateAtF
      apply bindTotal
      · obtain ⟨r, hr⟩ := ih c s (le_trans (le_max_left _ _) h)
        simp [hr]
      · rintro ⟨c', s'⟩
        exact ⟨_, rfl⟩
    | n + 1 =>
      unfold mutateAtF
      apply bindTotal
      · obtain ⟨r, hr⟩ := ihl n s (le_trans (le_max_right _ _) h)
        simp [hr]
      · rintro ⟨cs', s'⟩
        exact ⟨_, rfl⟩


lemma branchFinish_total (isAnd : Bool) (children : List MirrorNode) (s : RandStream) :
    ∃ r, branchFinish isAnd children s = some r := by
  unfold branchFinish
  simp only [coinFlip, Option.pure_def, Option.bind_eq_bind, Option.some_bind]
  split
  case isTrue h1 =>
    split
    · exact ⟨_, rfl⟩
    · exact ⟨_, rfl⟩
  case isFalse h1 =>
    split
    case isTrue h2 =>
      split
      case isTrue hw =>
        apply bindTotal
        · exact randRange_ne_none _ _ _ (by omega)
        · rintro ⟨idx, s'⟩
          split
          · exact ⟨_, rfl⟩
          · exact ⟨_, rfl⟩
      case isFalse hw => exact ⟨_, rfl⟩
    case isFalse h2 => exact ⟨_, rfl⟩

lemma branchEdit_total (fuel : Nat)
    (ih : ∀ (n : MirrorNode) (s : RandStream), n.height ≤ fuel →
      ∃ r, mutateNodeF fuel n s = some r)
    (len : Nat) (children : List MirrorNode) (s : RandStream)
    (h : MirrorNode.heightList children ≤ fuel) :
    ∃ r, branchEdit fuel len children s = some r := by
  unfold branchEdit
  simp only [coinFlip, Option.pure_def, Option.bind_eq_bind, Option.some_bind]
  split
  case isTrue hIns =>
    apply bindTotal
    · exact randRange_ne_none _ _ _ (by omega)
    · rintro ⟨idx, s'⟩
      apply bindTotal
      · obtain ⟨r, hr⟩ := createRandomLayer_total s'
        simp [hr]
      · rintro ⟨nl, s''⟩
        exact ⟨_, rfl⟩
  case isFalse hIns =>
    split
    case isTrue hlen =>
      split
      case isTrue hRem =>
        apply bindTotal
        · exact randRange_ne_none _ _ _ (by omega)
        · rintro ⟨idx, s'⟩
          exact ⟨_, rfl⟩
      case isFalse hRem =>
        split
        case isTrue hemp => exact ⟨_, rfl⟩
        case isFalse hemp =>
          apply bindTotal
          · apply randRange_ne_none
            have hne : children ≠ [] := fun hnil => hemp (by simp [hnil])
            have := List.length_pos.mpr hne
            omega
          · rintro ⟨idx, s'⟩
            exact mutateAt_total fuel ih children idx s' h
    case isFalse hlen =>
      split
      case isTrue hemp => exact ⟨_, rfl⟩
      case isFalse hemp =>
        apply bindTotal
        · apply randRange_ne_none
          have hne : children ≠ [] := fun hnil => hemp (by simp [hnil])
          have := List.length_pos.mpr hne
          omega
        · rintro ⟨idx, s'⟩
          exact mutateAt_total fuel ih children idx s' h

lemma branchMutate_total (fuel : Nat)
    (ih : ∀ (n : MirrorNode) (s : RandStream), n.height ≤ fuel →
      ∃ r, mutateNodeF fuel n s = some r)
    (isAnd : Bool) (children : List MirrorNode) (s : RandStream)
    (h : MirrorNode.heightList children ≤ fuel) :
    ∃ r, branchMutateF fuel isAnd children s = some r := by
  unfold branchMutateF
  simp only [coinFlip, Option.pure_def, Option.bind_eq_bind, Option.some_bind]
  split
  · exact ⟨_, rfl⟩
  · apply bindTotal
    · have hre : ∀ t : RandStream,
          MirrorNode.heightList (branchReorder children.length children t).1
            ≤ MirrorNode.heightList children := by
        intro t
        unfold branchReorder
        simp only [coinFlip]
        split
        · split
          · exact heightList_le _ _ (fun c hc => shuffleGo_mem _ _ _ _ c hc)
          · exact le_refl _
        · exact le_refl _
      obtain ⟨r, hr⟩ := branchEdit_total fuel ih children.length
        (branchReorder children.length children (s.tail?.getD [])).1
        (branchReorder children.length children (s.tail?.getD [])).2
        (le_trans (hre _) h)
      simp [hr]
    · rintro ⟨children', s'⟩
      exact branchFinish_total isAnd children' s'

lemma mutateNode_total : ∀ (fuel : Nat) (n : MirrorNode) (s : RandStream),
    n.height ≤ fuel → ∃ r, mutateNodeF fuel n s = some r := by
  intro fuel
  induction fuel with
  | zero =>
    intro n s h
    exact absurd h (by have := height_pos n; omega)
  | succ fuel ih =>
    intro n s h
    match n with
    | .Leaf layer =>
      rw [mutateNodeF]
      simp only [coinFlip, Option.pure_def, Option.bind_eq_bind, Option.some_bind]
      split
      · apply bindTotal
        · obtain ⟨r, hr⟩ := layerMutate_total layer (s.tail?.getD [])
          simp [hr]
        · rintro ⟨l', s'⟩
          exact ⟨_, rfl⟩
      · apply bindTotal
        · obtain ⟨r, hr⟩ := createRandomLayer_total (s.tail?.getD [])
          simp [hr]
        · rintro ⟨nl, s'⟩
          split
          · exact ⟨_, rfl⟩
          · exact ⟨_, rfl⟩
    | .And children =>
      rw [mutateNodeF]
      apply branchMutate_total fuel ih true children s
      have : MirrorNode.height (.And children) = 1 + MirrorNode.heightList children := rfl
      omega
    | .Or children =>
      rw [mutateNodeF]
      apply branchMutate_total fuel ih false children s
      have : MirrorNode.height (.Or children) = 1 + MirrorNode.heightList children := rfl
      omega

lemma createRandomLayer_ne_none (s : RandStream) : createRandomLayer s ≠ none := by
  obtain ⟨r, hr⟩ := createRandomLayer_total s
  simp [hr]

lemma mutateNodeF_ne_none (fuel : Nat) (n : MirrorNode) (s : RandStream)
    (h : n.height ≤ fuel) : mutateNodeF fuel n s ≠ none := by
  obtain ⟨r, hr⟩ := mutateNode_total fuel n s h
  simp [hr]

lemma mirrorMutate_total (m : Mirror) (s : RandStream) :
    ∃ r, Mirror.mutateM m s = some r := by
  unfold Mirror.mutateM
  simp only [coinFlip, Option.pure_def, Option.bind_eq_bind, Option.some_bind]
  split
  · apply bindTotal
    · exact createRandomLayer_ne_none _
    · rintro ⟨sib, s'⟩
      apply bindTotal
      · exact createRandomLayer_ne_none _
      · rintro ⟨ph, s''⟩
        split
        · exact ⟨_, rfl⟩
        · exact ⟨_, rfl⟩
  · split
    · apply bindTotal
      · exact createRandomLayer_ne_none _
      · rintro ⟨l, s'⟩
        exact ⟨_, rfl⟩
    · apply bindTotal
      · exact mutateNodeF_ne_none _ _ _ (le_refl _)
      · rintro ⟨root, s'⟩
        exact ⟨_, rfl⟩

lemma mirrorMutate_ne_none (m : Mirror) (s : RandStream) : Mirror.mutateM m s ≠ none := by
  obtain ⟨r, hr⟩ := mirrorMutate_total m s
  simp [hr]

lemma mutateTimes_total : ∀ (k : Nat) (m : Mirror) (s : RandStream),
    ∃ r, Mirror.mutateTimes k m s = some r := by
  intro k
  induction k with
  | zero => intro m s; exact ⟨_, rfl⟩
  | succ k ih =>
    intro m s
    unfold Mirror.mutateTimes
    apply bindTotal
    · exact mirrorMutate_ne_none _ _
    · rintro ⟨m', s'⟩
      exact ih m' s'

lemma mutateTimes_ne_none (k : Nat) (m : Mirror) (s : RandStream) :
    Mirror.mutateTimes k m s ≠ none := by
  obtain ⟨r, hr⟩ := mutateTimes_total k m s
  simp [hr]

lemma createRandomStep_word_inv (s s' : RandStream) (w : String)
    (h : createRandomStep s = some (.Word w, s')) : w = "the" := by
  unfold createRandomStep at h
  simp only [coinFlip, Option.pure_def, Option.bind_eq_bind, Option.some_bind] at h
  split at h
  · rw [Option.bind_eq_some] at h
    obtain ⟨p, -, h⟩ := h
    simp at h
  · split at h
    · simp at h
      exact h.1.symm
    · simp at h

lemma mutateStep_variant_word (a a' : MirrorAtom) (s s' : RandStream)
    (h : mutateStep a s = some (a', s')) (w : String) (hw : a' = .Word w) :
    ∃ v : String, a = .Word v := by
  match a with
  | .Word v => exact ⟨v, rfl⟩
  | .Whitespace =>
    unfold mutateStep at h
    simp only [Option.pure_def] at h
    rw [hw] at h
    simp at h
  | .UPOS tags =>
    unfold mutateStep at h
    simp only [coinFlip, Option.pure_def, Option.bind_eq_bind, Option.some_bind] at h
    subst hw
    split at h
    · split at h
      · rw [Option.bind_eq_some] at h
        obtain ⟨p, -, h⟩ := h
        simp at h
      · simp at h
    · split at h
      · rw [Option.bind_eq_some] at h
        obtain ⟨⟨i, s₂⟩, -, h⟩ := h
        split at h
        · rw [Option.bind_eq_some] at h
          obtain ⟨q, -, h⟩ := h
          simp at h
        · simp at h
      · split at h
        · rw [Option.bind_eq_some] at h
          obtain ⟨q, -, h⟩ := h
          simp at h
        · simp at h

lemma mutateStep_word_inv (v : String) (a' : MirrorAtom) (s s' : RandStream)
    (h : mutateStep (.Word v) s = some (a', s')) :
    a' = .Word v ∨ ∃ t : Nat, 1 ≤ t ∧ a' = .Word ⟨v.data.take t⟩ ∧ v.data ≠ [] := by
  unfold mutateStep at h
  simp only [coinFlip, Option.pure_def, Option.bind_eq_bind, Option.some_bind] at h
  split at h
  case isTrue hb =>
    rw [Option.bind_eq_some] at h
    obtain ⟨⟨t, s₂⟩, hrr, h⟩ := h
    have hrb := randRange_some _ _ _ _ _ hrr
    right
    refine ⟨t, by omega, ?_, ?_⟩
    · simp at h
      exact h.1.symm
    · intro hnil
      rw [Bool.and_eq_true] at hb
      simp [hnil] at hb
  case isFalse =>
    left
    simp at h
    exact h.1.symm

/-- C5 amended: every reachable `Word` atom has non-empty text —
construction only ever produces the literal `"the"`, and the truncating
mutation keeps at least one character — while reachable tag-set atoms CAN be
empty (see the counterexample), contrary to the claim. -/
theorem reachable_word_text_nonempty :
    ∀ a : MirrorAtom, ReachableAtom a → ∀ w : String, a = .Word w → w.data ≠ [] := by
  intro a h
  induction h with
  | created s s' a hc =>
    intro w hw
    subst hw
    have := createRandomStep_word_inv s s' w hc
    subst this
    intro hnil
    simp at hnil
  | mutated a a' s s' hr hm ih =>
    intro w hw
    subst hw
    obtain ⟨v, hv⟩ := mutateStep_variant_word a _ s s' hm w rfl
    subst hv
    rcases mutateStep_word_inv v _ s s' hm with h1 | ⟨t, ht, he, hne⟩
    · have hwv : w = v := by injection h1
      subst hwv
      exact ih w rfl
    · cases he
      intro hnil
      have hnil' : v.data.take t = [] := hnil
      have hlen := congrArg List.length hnil'
      rw [List.length_take] at hlen
      simp only [List.length_nil] at hlen
      have hvpos := List.length_pos.mpr hne
      omega

/-- C5 counterexample: the step constructor itself produces an empty tag
set — on the all-zero draw stream `create_random_step` takes the tag-set
branch and truncates the shuffled enumeration to length zero — so the
claimed invariant that a tag-set atom is never empty is false: the empty
tag set is reachable, not normalized away or rejected. -/
theorem empty_tagset_reachable_counterexample :
    createRandomStep [] = some (.UPOS [], [])
    ∧ ReachableAtom (.UPOS [])
    ∧ ¬ (∀ a : MirrorAtom, ReachableAtom a →
          ∀ tags : List UPOS, a = .UPOS tags → tags ≠ []) := by
  have h : createRandomStep [] = some (.UPOS [], []) := by decide
  have hr : ReachableAtom (.UPOS []) := .created [] [] _ h
  exact ⟨h, hr, fun hall => (hall _ hr [] rfl) rfl⟩

/-- Witness for the amended C5 theorem: the literal word atom produced by
`create_random_step` on the stream `[1, 0]` (word branch) is reachable and
its text `"the"` is non-empty. -/
theorem reachable_word_text_nonempty_witness :
    ("the" : String).data ≠ [] :=
  reachable_word_text_nonempty (.Word "the")
    (.created [1, 0] [] _ (by decide)) "the" rfl

/-- C6: mutation is closed — for every tree and every draw stream,
`Mirror::mutate` returns a tree rather than hitting a panic path (every
random range it draws from is non-empty and the single `unwrap` is in
bounds) — and compilation of the degenerate trees mutation can produce is
well-defined: a zero-child `And` compiles to `All` of no children, which
matches at every position of every document, and a zero-child `Or` compiles
to `LongestMatchOf` of no children, which matches nowhere.  (Compilation
`to_owned_expr` itself is total by construction; the semantics of `All` and
`LongestMatchOf` is modelled from the spec, as `harper_core` is external.) -/
theorem mutation_closure_and_degenerate_compile :
    (∀ (m : Mirror) (s : RandStream), ∃ r : Mirror × RandStream, Mirror.mutateM m s = some r)
    ∧ (∀ (doc : Doc) (p : Nat),
        matchesAt (MirrorNode.to_owned_expr (.And [])) doc p = true
        ∧ matchesAt (MirrorNode.to_owned_expr (.Or [])) doc p = false) := by
  refine ⟨mirrorMutate_total, ?_⟩
  intro doc p
  constructor
  · simp [MirrorNode.to_owned_expr, MirrorNode.to_owned_exprList, matchesAt, allMatchAt]
  · simp [MirrorNode.to_owned_expr, MirrorNode.to_owned_exprList, matchesAt, anyMatchAt]

/-- C9: for `max_mutations ≥ 1` (the inclusive range `1..=max_mutations` is
else empty and `gen_range` panics) reproduction returns exactly
`child_count` children, and every child equals the parent clone with some
number `k ∈ [1, max_mutations]` of sequential mutations applied to it alone
— each child derives from the parent directly, never from a sibling, so no
child\x27s mutations affect any other child.  (That the drawn `k` is uniform
is a distributional property of the external `rand` crate; the model
exposes that each value of the range is drawable.) -/
theorem create_children_spec :
    ∀ (parent : Mirror) (count maxMutations : Nat) (s : RandStream),
      1 ≤ maxMutations →
      ∃ (cs : List Mirror) (s' : RandStream),
        Mirror.createChildren parent count maxMutations s = some (cs, s')
        ∧ cs.length = count
        ∧ ∀ c ∈ cs, ∃ (k : Nat) (s₀ s₁ : RandStream),
            1 ≤ k ∧ k ≤ maxMutations
            ∧ Mirror.mutateTimes k parent s₀ = some (c, s₁) := by
  intro parent count
  induction count with
  | zero =>
    intro maxMut s hmax
    exact ⟨[], s, rfl, rfl, by simp⟩
  | succ n ih =>
    intro maxMut s hmax
    obtain ⟨⟨k, s₁⟩, hk⟩ : ∃ r, randRange 1 (maxMut + 1) s = some r := by
      cases hrr : randRange 1 (maxMut + 1) s with
      | none => exact absurd hrr (randRange_ne_none _ _ _ (by omega))
      | some r => exact ⟨r, rfl⟩
    have hkb := randRange_some _ _ _ _ _ hk
    obtain ⟨⟨child, s₂⟩, hchild⟩ := mutateTimes_total k parent s₁
    obtain ⟨cs, s₃, hrec, hlen, hall⟩ := ih maxMut s₂ hmax
    refine ⟨child :: cs, s₃, ?_, by simp [hlen], ?_⟩
    · unfold Mirror.createChildren
      simp only [Option.pure_def, Option.bind_eq_bind]
      rw [hk]
      simp only [Option.some_bind]
      rw [hchild]
      simp only [Option.some_bind]
      rw [hrec]
      simp only [Option.some_bind]
    · intro c hc
      rcases List.mem_cons.mp hc with rfl | hmem
      · exact ⟨k, s₁, s₂, hkb.1, by omega, hchild⟩
      · exact hall c hmem

/-- Witness for the C9 theorem at a concrete input: the default single-leaf
parent, one child, one mutation, the zero draw stream. -/
theorem create_children_spec_witness :
    1 ≤ 1
    ∧ ∃ (cs : List Mirror) (s' : RandStream),
        Mirror.createChildren ⟨default⟩ 1 1 [] = some (cs, s')
        ∧ cs.length = 1
        ∧ ∀ c ∈ cs, ∃ (k : Nat) (s₀ s₁ : RandStream),
            1 ≤ k ∧ k ≤ 1 ∧ Mirror.mutateTimes k ⟨default⟩ s₀ = some (c, s₁) :=
  ⟨le_refl 1, create_children_spec ⟨default⟩ 1 1 [] (le_refl 1)⟩

lemma chooseMultiple_one_singleton (s : RandStream) :
    (chooseMultiple 1 ["a"] s).1 = ["a"] := by
  simp [chooseMultiple, drawNat, Nat.mod_one]

/-- On the single-word pool with the avoided list equal to the only
drawable sample, the retry recursion of `distinct_words` never returns,
whatever the fuel and whatever the draw stream. -/
lemma distinctWords_stuck : ∀ (fuel : Nat) (s : RandStream),
    distinctWords fuel ["a"] 1 s (some ["a"]) = none := by
  intro fuel
  induction fuel with
  | zero => intro s; rfl
  | succ fuel ih =>
    intro s
    unfold distinctWords
    have h1 : (chooseMultiple 1 ["a"] s).1 = ["a"] := chooseMultiple_one_singleton s
    simp [h1, sortStrings, dedupAdj, ih]

/-- C10 counterexample: `distinct_words` does not terminate on every input:
with pool `["a"]`, `k = 1` and `avoid = Some(["a"])` — and, concretely, the
zero draw stream — every drawable sample sorts and deduplicates to the
avoided list itself, so the retry recurses forever and no amount of fuel
makes the model return. -/
theorem distinct_words_diverges_counterexample :
    distinctWordsTerminates ["a"] 1 [] (some ["a"]) = False := by
  apply eq_false
  rintro ⟨fuel, h⟩
  rw [distinctWords_stuck fuel []] at h
  simp at h

/-- C10 amended: `distinct_words` terminates for every pool, `k` and draw
stream whenever no avoided list is supplied (a single pass, no retry);
termination for arbitrary `avoid` arguments fails (see the counterexample),
because the retry fires whenever the sorted-deduplicated sample equals the
avoided list and nothing guarantees a different sample is drawable. -/
theorem distinct_words_terminates_without_avoid :
    ∀ (pool : List String) (k : Nat) (s : RandStream),
      (distinctWords 1 pool k s none).isSome = true := by
  intro pool k s
  simp [distinctWords]

lemma mergeSort_pair_same (c : Candidate) (le : Candidate → Candidate → Bool) :
    [c, c].mergeSort le = [c, c] := by
  have hp := List.mergeSort_perm [c, c] le
  have hlen : ([c, c].mergeSort le).length = 2 := by
    rw [List.length_mergeSort]
    rfl
  obtain ⟨x, y, hxy⟩ := List.length_eq_two.mp hlen
  have hx : x = c := by
    have : x ∈ [c, c] := hp.subset (by simp [hxy])
    simpa using this
  have hy : y = c := by
    have : y ∈ [c, c] := hp.subset (by simp [hxy])
    simpa using this
  rw [hxy, hx, hy]

/-- Witness for the C4 theorem at a concrete population: two copies of the
same candidate with elite size one — one is retained, one is discarded, and
the retained score is (trivially, they are equal) at least the discarded
score; the truncated length is `min 1 2`. -/
theorem selection_truncation_invariant_witness :
    (select 1 [simpleCand, simpleCand]).length = min 1 2
    ∧ score simpleCand.scan ≤ score simpleCand.scan := by
  have h := selection_truncation_invariant 1 [simpleCand, simpleCand]
  have hms : ([simpleCand, simpleCand].mergeSort
      fun a b => decide (sortKey a ≤ sortKey b)) = [simpleCand, simpleCand] :=
    mergeSort_pair_same simpleCand _
  refine ⟨h.1, h.2 simpleCand ?_ simpleCand ?_⟩
  · show simpleCand ∈ select 1 [simpleCand, simpleCand]
    simp [select, hms]
  · show simpleCand ∈ discarded 1 [simpleCand, simpleCand]
    simp [discarded, hms]
